import Mathlib

/-!
# Verification of the `speakhuman` formatting library

Shallow embedding of the `speakhuman` package (human-readable formatting of
numbers, byte sizes, durations and lists) together with proofs of the
specification's claims.  The export surface (`src/speakhuman/__init__.py`)
and the benchmark helper (`benchmarks/bench_compare.py`) are embedded from
the source; the formatter modules themselves (`speakhuman/number.py`,
`speakhuman/filesize.py`, `speakhuman/time.py`, `speakhuman/lists.py`,
`speakhuman/i18n.py`) are not part of the source tree and are modelled from
the specification where a claim requires them.
-/

namespace Speakhuman

/-! ## Public facade (`src/speakhuman/__init__.py`) -/

/-- The `__all__` list of `src/speakhuman/__init__.py` (lines 30-51),
verbatim and in source order. -/
def allExports : List String :=
  [ "__version__"
  , "activate"
  , "apnumber"
  , "clamp"
  , "deactivate"
  , "decimal_separator"
  , "fractional"
  , "intcomma"
  , "intword"
  , "metric"
  , "natural_list"
  , "naturaldate"
  , "naturalday"
  , "naturaldelta"
  , "naturalsize"
  , "naturaltime"
  , "ordinal"
  , "precisedelta"
  , "scientific"
  , "thousands_separator" ]

/-- The operations enumerated in spec section 4, plus the version string,
in the order claim C1 lists them. -/
def specExports : List String :=
  [ "activate"
  , "deactivate"
  , "decimal_separator"
  , "thousands_separator"
  , "intcomma"
  , "intword"
  , "ordinal"
  , "apnumber"
  , "scientific"
  , "fractional"
  , "metric"
  , "clamp"
  , "naturalsize"
  , "naturaldelta"
  , "naturaltime"
  , "naturalday"
  , "naturaldate"
  , "precisedelta"
  , "natural_list"
  , "__version__" ]

/-! ## Number formatter: `ordinal` -/

/-- Modelled from the spec: `speakhuman/number.py` is not in the source
tree.  Suffix lookup table indexed by the value's last decimal digit. -/
def ordinalSuffixTable : List String :=
  ["th", "st", "nd", "rd", "th", "th", "th", "th", "th", "th"]

/-- Modelled from the spec: `speakhuman/number.py` is not in the source
tree.  `ordinal(value)` appends the English ordinal suffix: values ending
in 11, 12, 13 get "th"; otherwise the suffix is chosen by the last decimal
digit via the lookup table. -/
def ordinal (n : Nat) : String :=
  if n % 100 = 11 ∨ n % 100 = 12 ∨ n % 100 = 13 then toString n ++ "th"
  else toString n ++ ordinalSuffixTable.getD (n % 10) "th"

/-- The suffix rule exactly as claim C6 words it: "th" when the value ends
in 11, 12 or 13, else "st"/"nd"/"rd" for last digit 1/2/3, else "th". -/
def ordinalSuffixSpec (n : Nat) : String :=
  if n % 100 = 11 ∨ n % 100 = 12 ∨ n % 100 = 13 then "th"
  else if n % 10 = 1 then "st"
  else if n % 10 = 2 then "nd"
  else if n % 10 = 3 then "rd"
  else "th"

/-! ## Number formatter: `intcomma` -/

/-- Walk a reversed digit list and insert `sep` after every third
character; the counter holds the number of characters still to copy
before the next separator. -/
def groupRev (sep : Char) : Nat → List Char → List Char
  | _, [] => []
  | 0, c :: rest => sep :: c :: groupRev sep 2 rest
  | k + 1, c :: rest => c :: groupRev sep k rest

/-- Modelled from the spec: `speakhuman/number.py` is not in the source
tree.  `intcomma(value)` on an integer inserts the active thousands
separator every 3 digits left of the decimal point, the negative sign
kept before the first digit. -/
def intcomma (sep : Char) (v : Int) : String :=
  (if v < 0 then "-" else "")
    ++ ((groupRev sep 3 (toString v.natAbs).toList.reverse).reverse).asString

/-- The digit part of an `intcomma` result: the output with the sign
stripped. -/
def intcommaDigits (sep : Char) (v : Int) : List Char :=
  if v < 0 then (intcomma sep v).toList.drop 1 else (intcomma sep v).toList

/-! ## Byte-size formatter: `naturalsize` -/

/-- Decimal (1000-based) suffixes, indexed from kilobytes. -/
def suffixesDecimal : List String :=
  ["kB", "MB", "GB", "TB", "PB", "EB", "ZB", "YB"]

/-- Binary (1024-based) suffixes. -/
def suffixesBinary : List String :=
  ["KiB", "MiB", "GiB", "TiB", "PiB", "EiB", "ZiB", "YiB"]

/-- GNU single-letter suffixes (1024-based, no space). -/
def suffixesGnu : List String :=
  ["K", "M", "G", "T", "P", "E", "Z", "Y"]

/-- Round `a / b` to the nearest integer, ties to even (the rounding of a
C `"%.1f"`-style format on an exact quotient). -/
def roundHalfEven (a b : Nat) : Nat :=
  let q := a / b
  let r := a % b
  if 2 * r < b then q
  else if b < 2 * r then q + 1
  else if q % 2 = 0 then q else q + 1

/-- Format `n / d` with one fractional digit (`"%.1f"`). -/
def fmtOneDecimal (n d : Nat) : String :=
  let t := roundHalfEven (10 * n) d
  s!"{t / 10}.{t % 10}"

/-- Number of divisions by `base` until the magnitude drops below `base`,
capped by the first argument (the number of defined suffixes). -/
def scaleSteps (base : Nat) : Nat → Nat → Nat
  | 0, _ => 0
  | cap + 1, n => if n < base then 0 else scaleSteps base cap (n / base) + 1

/-- Modelled from the spec: `speakhuman/filesize.py` is not in the source
tree.  `naturalsize` on a non-negative count: unit system chosen by flags
(gnu takes precedence over binary over decimal), repeated division by the
base while the magnitude is at least the base, capped at the largest
suffix; the scaled value is formatted `"%.1f"` and the suffix appended,
space-separated except in gnu mode; below one base unit the count is
shown in bytes. -/
def naturalsizeNat (binary gnu : Bool) (n : Nat) : String :=
  let base := if gnu || binary then 1024 else 1000
  let sufs :=
    if gnu then suffixesGnu else if binary then suffixesBinary
    else suffixesDecimal
  if n < base then
    if gnu then s!"{n}B"
    else if n = 1 then "1 Byte"
    else s!"{n} Bytes"
  else
    let i := scaleSteps base sufs.length n
    fmtOneDecimal n (base ^ i) ++ (if gnu then "" else " ") ++ sufs.getD (i - 1) ""

/-- Modelled from the spec: `speakhuman/filesize.py` is not in the source
tree.  `naturalsize` on a possibly negative value: a negative value
formats its absolute magnitude with a leading "-". -/
def naturalsize (binary gnu : Bool) (v : Int) : String :=
  if v < 0 then "-" ++ naturalsizeNat binary gnu v.natAbs
  else naturalsizeNat binary gnu v.toNat

/-! ## Duration formatter: `naturaldelta` -/

/-- Pluralized count phrase, chosen by the English plural rule:
`"1 second"`, `"5 seconds"`. -/
def countPhrase (unit : String) (n : Nat) : String :=
  if n = 1 then "1 " ++ unit else s!"{n} {unit}s"

/-- Round `a / b` to the nearest integer, halves rounding up. -/
def roundHalfUp (a b : Nat) : Nat := (a + b / 2) / b

/-- Modelled from the spec: `speakhuman/time.py` is not in the source
tree.  `naturaldelta` under its default arguments (`months=True`,
`minimum_unit="seconds"`), applied to the duration's magnitude in whole
seconds.  Ladder with tie thresholds at one minute (60 s), one hour
(3600 s), one day (86400 s), one month (30.5 days = 2635200 s) and one
year (365 days = 31536000 s): an exact threshold yields the larger unit's
article phrasing; between thresholds the magnitude is rounded to the
nearest whole bucket unit, halves rounding up. -/
def naturaldelta (t : Nat) : String :=
  if t = 0 then "a moment"
  else if t < 60 then countPhrase "second" t
  else if t = 60 then "a minute"
  else if t < 3600 then countPhrase "minute" (roundHalfUp t 60)
  else if t = 3600 then "an hour"
  else if t < 86400 then countPhrase "hour" (roundHalfUp t 3600)
  else if t = 86400 then "a day"
  else if t < 2635200 then countPhrase "day" (roundHalfUp t 86400)
  else if t = 2635200 then "a month"
  else if t < 31536000 then countPhrase "month" (roundHalfUp t 2635200)
  else if t = 31536000 then "a year"
  else countPhrase "year" (roundHalfUp t 31536000)

/-! ## List formatter: `natural_list` -/

/-- Modelled from the spec: `speakhuman/lists.py` is not in the source
tree.  `natural_list(items)` returns "" for an empty list, the sole item
for a singleton, `"a and b"` for two items, and for three or more joins
all but the last with ", " and prefixes the last with ", and ". -/
def natural_list (items : List String) : String :=
  match items with
  | [] => ""
  | [x] => x
  | [x, y] => x ++ " and " ++ y
  | x :: y :: z :: rest =>
      String.intercalate ", " ((x :: y :: z :: rest).dropLast)
        ++ ", and " ++ (x :: y :: z :: rest).getLastD ""

/-! ## Duration formatter: `precisedelta` -/

/-- The units of the precision breakdown, largest to smallest. -/
inductive TUnit
  | years | months | days | hours | minutes | seconds
  | milliseconds | microseconds
deriving DecidableEq

/-- Length of one unit in microseconds (month = 30.5 days, year = 365
days). -/
def TUnit.usecs : TUnit → Nat
  | .years => 31536000000000
  | .months => 2635200000000
  | .days => 86400000000
  | .hours => 3600000000
  | .minutes => 60000000
  | .seconds => 1000000
  | .milliseconds => 1000
  | .microseconds => 1

/-- Position in the largest-to-smallest order (years first). -/
def TUnit.rank : TUnit → Nat
  | .years => 0
  | .months => 1
  | .days => 2
  | .hours => 3
  | .minutes => 4
  | .seconds => 5
  | .milliseconds => 6
  | .microseconds => 7

/-- All units, largest to smallest. -/
def unitsDesc : List TUnit :=
  [.years, .months, .days, .hours, .minutes, .seconds,
   .milliseconds, .microseconds]

/-- Modelled from the spec: `speakhuman/time.py` is not in the source
tree.  The units `precisedelta` retains: every unit from years down to the
requested minimum unit that is not in the suppress set. -/
def retainedUnits (minUnit : TUnit) (suppress : List TUnit) : List TUnit :=
  unitsDesc.filter fun u => decide (u.rank ≤ minUnit.rank ∧ u ∉ suppress)

/-- Modelled from the spec: `speakhuman/time.py` is not in the source
tree.  Greedy decomposition of a duration (in microseconds) over a
largest-to-smallest unit list: every unit but the last takes the integer
quotient and passes the remainder on; the last retained unit keeps the
exact remainder, so it alone may be fractional. -/
def decompose : Nat → List TUnit → List (TUnit × ℚ)
  | _, [] => []
  | t, [u] => [(u, (t : ℚ) / (u.usecs : ℚ))]
  | t, u :: v :: rest =>
      (u, ((t / u.usecs : Nat) : ℚ)) :: decompose (t % u.usecs) (v :: rest)

/-- Total duration represented by an itemized breakdown: the sum of each
magnitude times its unit's length in microseconds. -/
def sumRepr (L : List (TUnit × ℚ)) : ℚ :=
  (L.map fun p => p.2 * (p.1.usecs : ℚ)).sum

/-! ## Locale context and error model -/

/-- The process-wide locale setting of the spec's data model: decimal
separator, thousands separator and plural-rule tag. -/
structure LocaleState where
  decimalSep : Char
  thousandsSep : Char
  pluralRule : String
deriving DecidableEq

/-- The default "C"-like locale: "." decimal, "," thousands, English
plural rule. -/
def defaultLocale : LocaleState := ⟨'.', ',', "en"⟩

/-- The three error kinds of spec section 7. -/
inductive FmtError
  | invalidNumericInput
  | localeNotFoundError
  | unsupportedUnitError
deriving DecidableEq

/-- A numeric argument: an integer or a decimal string. -/
inductive NumInput
  | int (n : Int)
  | str (s : String)

/-- Modelled from the spec: a decimal numeral is an optional minus sign
followed by one or more digits. -/
def validNumeral (s : String) : Bool :=
  let t := if s.toList.head? = some '-' then s.toList.drop 1 else s.toList
  !t.isEmpty && t.all fun c => c.isDigit

/-- Value of a list of decimal digit characters. -/
def digitsToNat (l : List Char) : Nat :=
  l.foldl (fun acc c => 10 * acc + (c.toNat - 48)) 0

/-- Modelled from the spec: numeric-type dispatch resolved once at the
function boundary, failing with `InvalidNumericInput` on a string that is
not a valid numeral. -/
def parseNumeric : NumInput → Except FmtError Int
  | .int n => .ok n
  | .str s =>
      if validNumeral s then
        .ok (if s.toList.head? = some '-' then
               -(digitsToNat (s.toList.drop 1) : Int)
             else (digitsToNat s.toList : Int))
      else .error .invalidNumericInput

/-- The locale catalog of the model: tag to locale setting. -/
def localeCatalog : List (String × LocaleState) :=
  [("en", defaultLocale), ("fr", ⟨',', ' ', "fr"⟩), ("de", ⟨',', '.', "de"⟩)]

/-- Modelled from the spec: `activate(tag)` installs the named locale as
process-wide state, failing with `LocaleNotFoundError` when no catalog
entry matches (the state is then left unchanged). -/
def activate (tag : String) (st : LocaleState) :
    Except FmtError Unit × LocaleState :=
  match localeCatalog.lookup tag with
  | some loc => (.ok (), loc)
  | none => (.error .localeNotFoundError, st)

/-- Modelled from the spec: `deactivate()` restores the default locale. -/
def deactivate (_ : LocaleState) : LocaleState := defaultLocale

/-- One public formatting call with its arguments, over the formatters
embedded in this file. -/
inductive FmtCall
  | intcommaCall (v : NumInput)
  | ordinalCall (v : NumInput)
  | naturalsizeCall (v : NumInput) (binary gnu : Bool)
  | naturaldeltaCall (secs : Nat)
  | naturalListCall (items : List String)

/-- Modelled from the spec: a formatting call reads the process-wide
locale state, resolves its numeric argument, and either returns a fully
formatted string or fails with a single error; the state is returned
alongside the outcome. -/
def runFormat : FmtCall → LocaleState → Except FmtError String × LocaleState
  | .intcommaCall v, st => ((parseNumeric v).map (intcomma st.thousandsSep), st)
  | .ordinalCall v, st => ((parseNumeric v).map fun n => ordinal n.natAbs, st)
  | .naturalsizeCall v b g, st => ((parseNumeric v).map (naturalsize b g), st)
  | .naturaldeltaCall secs, st => (.ok (naturaldelta secs), st)
  | .naturalListCall items, st => (.ok (natural_list items), st)

/-! ## Benchmark helper (`benchmarks/bench_compare.py`) -/

/-- `COLORS["reset"]` from `bench_compare.py` line 264: the ANSI reset
escape. -/
def colorsReset : String := "\x1b[0m"

/-- Python `int()` truncation toward zero, on a rational. -/
def truncQ (q : ℚ) : Int := if 0 ≤ q then ⌊q⌋ else ⌈q⌉

/-- The `filled` value of `bar` (`bench_compare.py` lines 274-275): the
scaled cell count, computed only when `max_val > 0`, then clamped to
`[1, width]`. -/
def barFilled (value maxVal : ℚ) (width : Nat) : Int :=
  max 1 (min (if 0 < maxVal then truncQ (value / maxVal * width) else 0)
    (width : Int))

/-- `bar` from `bench_compare.py` (lines 272-277): a horizontal bar of
`filled` block cells then `width - filled` shade cells, wrapped in the
color and reset escapes. -/
def bar (value maxVal : ℚ) (width : Nat) (color : String) : String :=
  color ++ (List.replicate (barFilled value maxVal width).toNat '█').asString
    ++ colorsReset
    ++ (List.replicate ((width : Int) - barFilled value maxVal width).toNat
        '░').asString

end Speakhuman

namespace Speakhuman

/-! ## Theorems -/

/-- C1: the package's public export surface (`__all__`) contains exactly
the operations enumerated in spec section 4 plus the version string, with
no duplicates, and no exported name begins with an underscore other than
`__version__`. -/
theorem c1_export_surface :
    (∀ s, s ∈ allExports ↔ s ∈ specExports) ∧
    allExports.Nodup ∧
    (∀ s ∈ allExports, s.toList.head? = some '_' → s = "__version__") := by
  refine ⟨?_, by decide, by decide⟩
  intro s
  constructor
  · intro h
    fin_cases h <;> decide
  · intro h
    fin_cases h <;> decide

lemma ordinal_suffix_eq :
    ∀ r < 100,
      (if r = 11 ∨ r = 12 ∨ r = 13 then "th"
       else ordinalSuffixTable.getD (r % 10) "th") =
      (if r = 11 ∨ r = 12 ∨ r = 13 then "th"
       else if r % 10 = 1 then "st"
       else if r % 10 = 2 then "nd"
       else if r % 10 = 3 then "rd"
       else "th") := by
  decide

/-- C6: under the default English locale, `ordinal` appends the suffix
the claim's rule describes (11/12/13 endings get "th", else by last digit
1/2/3 → "st"/"nd"/"rd", else "th"), and agrees with the ten enumerated
sample values. -/
theorem c6_ordinal :
    (∀ n : Nat, ordinal n = toString n ++ ordinalSuffixSpec n) ∧
    ordinal 1 = "1st" ∧ ordinal 2 = "2nd" ∧ ordinal 3 = "3rd" ∧
    ordinal 4 = "4th" ∧ ordinal 11 = "11th" ∧ ordinal 12 = "12th" ∧
    ordinal 13 = "13th" ∧ ordinal 21 = "21st" ∧ ordinal 101 = "101st" ∧
    ordinal 111 = "111th" := by
  refine ⟨?_, by decide, by decide, by decide, by decide, by decide,
    by decide, by decide, by decide, by decide, by decide⟩
  intro n
  have h10 : n % 10 = n % 100 % 10 := (Nat.mod_mod_of_dvd n ⟨10, rfl⟩).symm
  have h100 : n % 100 < 100 := Nat.mod_lt _ (by norm_num)
  unfold ordinal ordinalSuffixSpec
  rw [h10]
  have key := ordinal_suffix_eq (n % 100) h100
  by_cases hc : n % 100 = 11 ∨ n % 100 = 12 ∨ n % 100 = 13
  · simp only [if_pos hc] at key ⊢
  · simp only [if_neg hc] at key ⊢
    rw [key]

/-- C7: `natural_list` returns "" on the empty list, the sole item on a
singleton, the two items joined by " and " on a pair, and for three or
more items joins all but the last with ", " and prefixes the last with
", and " (Oxford comma). -/
theorem c7_natural_list :
    natural_list [] = "" ∧
    (∀ x, natural_list [x] = x) ∧
    (∀ x y, natural_list [x, y] = x ++ " and " ++ y) ∧
    (∀ l : List String, 3 ≤ l.length →
      natural_list l =
        String.intercalate ", " l.dropLast ++ ", and " ++ l.getLastD "") := by
  refine ⟨rfl, fun x => rfl, fun x y => rfl, ?_⟩
  intro l hl
  match l with
  | [] => simp at hl
  | [x] => simp at hl
  | [x, y] => simp at hl
  | x :: y :: z :: rest => rfl

/-- C5: `naturalsize` returns "0 Bytes" for 0, "1.0 KiB" for 1024 under
`binary=True`, "1.0 kB" for 1000 under default flags, "1.0K" for 1024
under `gnu=True`, and formats every negative value as "-" followed by the
formatting of the absolute magnitude. -/
theorem c5_naturalsize :
    naturalsize false false 0 = "0 Bytes" ∧
    naturalsize true false 1024 = "1.0 KiB" ∧
    naturalsize false false 1000 = "1.0 kB" ∧
    naturalsize false true 1024 = "1.0K" ∧
    (∀ (binary gnu : Bool) (v : Int), v < 0 →
      naturalsize binary gnu v = "-" ++ naturalsize binary gnu (-v)) := by
  refine ⟨by decide, by decide, by decide, by decide, ?_⟩
  intro b g v hv
  have h1 : ¬(-v < 0) := by omega
  have h2 : (-v).toNat = v.natAbs := by omega
  unfold naturalsize
  rw [if_pos hv, if_neg h1, h2]

/-- Witness for C5: the negative-value clause at -2048 bytes. -/
theorem c5_witness :
    (-2048 : Int) < 0 ∧
    naturalsize false false (-2048) = "-" ++ naturalsize false false 2048 := by
  refine ⟨by decide, ?_⟩
  have h := c5_naturalsize.2.2.2.2 false false (-2048) (by decide)
  simpa using h

/-- C2: under the default locale, `naturaldelta` returns "a minute" at
exactly 60 seconds and "1 year" at 500 days; every exact bucket threshold
of the ladder yields the larger unit's phrasing, and magnitudes strictly
between thresholds are rounded to the nearest whole bucket unit with
round-half-up. -/
theorem c2_naturaldelta :
    naturaldelta 60 = "a minute" ∧
    naturaldelta (500 * 86400) = "1 year" ∧
    naturaldelta 1 = "1 second" ∧
    naturaldelta 3600 = "an hour" ∧
    naturaldelta 86400 = "a day" ∧
    naturaldelta 2635200 = "a month" ∧
    naturaldelta 31536000 = "a year" ∧
    (∀ t, 0 < t → t < 60 → naturaldelta t = countPhrase "second" t) ∧
    (∀ t, 60 < t → t < 3600 →
      naturaldelta t = countPhrase "minute" (roundHalfUp t 60)) ∧
    (∀ t, 3600 < t → t < 86400 →
      naturaldelta t = countPhrase "hour" (roundHalfUp t 3600)) ∧
    (∀ t, 86400 < t → t < 2635200 →
      naturaldelta t = countPhrase "day" (roundHalfUp t 86400)) ∧
    (∀ t, 2635200 < t → t < 31536000 →
      naturaldelta t = countPhrase "month" (roundHalfUp t 2635200)) ∧
    (∀ t, 31536000 < t →
      naturaldelta t = countPhrase "year" (roundHalfUp t 31536000)) := by
  refine ⟨by decide, by decide, by decide, by decide, by decide, by decide,
    by decide, ?_, ?_, ?_, ?_, ?_, ?_⟩
  · intro t h1 h2
    unfold naturaldelta
    rw [if_neg (show ¬t = 0 by omega), if_pos h2]
  · intro t h1 h2
    unfold naturaldelta
    rw [if_neg (show ¬t = 0 by omega), if_neg (show ¬t < 60 by omega),
      if_neg (show ¬t = 60 by omega), if_pos h2]
  · intro t h1 h2
    unfold naturaldelta
    rw [if_neg (show ¬t = 0 by omega), if_neg (show ¬t < 60 by omega),
      if_neg (show ¬t = 60 by omega), if_neg (show ¬t < 3600 by omega),
      if_neg (show ¬t = 3600 by omega), if_pos h2]
  · intro t h1 h2
    unfold naturaldelta
    rw [if_neg (show ¬t = 0 by omega), if_neg (show ¬t < 60 by omega),
      if_neg (show ¬t = 60 by omega), if_neg (show ¬t < 3600 by omega),
      if_neg (show ¬t = 3600 by omega), if_neg (show ¬t < 86400 by omega),
      if_neg (show ¬t = 86400 by omega), if_pos h2]
  · intro t h1 h2
    unfold naturaldelta
    rw [if_neg (show ¬t = 0 by omega), if_neg (show ¬t < 60 by omega),
      if_neg (show ¬t = 60 by omega), if_neg (show ¬t < 3600 by omega),
      if_neg (show ¬t = 3600 by omega), if_neg (show ¬t < 86400 by omega),
      if_neg (show ¬t = 86400 by omega),
      if_neg (show ¬t < 2635200 by omega),
      if_neg (show ¬t = 2635200 by omega), if_pos h2]
  · intro t h1
    unfold naturaldelta
    rw [if_neg (show ¬t = 0 by omega), if_neg (show ¬t < 60 by omega),
      if_neg (show ¬t = 60 by omega), if_neg (show ¬t < 3600 by omega),
      if_neg (show ¬t = 3600 by omega), if_neg (show ¬t < 86400 by omega),
      if_neg (show ¬t = 86400 by omega),
      if_neg (show ¬t < 2635200 by omega),
      if_neg (show ¬t = 2635200 by omega),
      if_neg (show ¬t < 31536000 by omega),
      if_neg (show ¬t = 31536000 by omega)]

/-- Witness for C2: one instantiation of every hypothesis-bearing clause
of the ladder. -/
theorem c2_witness :
    ((0 : Nat) < 30 ∧ 30 < 60 ∧ naturaldelta 30 = "30 seconds") ∧
    ((60 : Nat) < 90 ∧ 90 < 3600 ∧ naturaldelta 90 = "2 minutes") ∧
    ((3600 : Nat) < 7200 ∧ 7200 < 86400 ∧ naturaldelta 7200 = "2 hours") ∧
    ((86400 : Nat) < 604800 ∧ 604800 < 2635200 ∧
      naturaldelta 604800 = "7 days") ∧
    ((2635200 : Nat) < 7905600 ∧ 7905600 < 31536000 ∧
      naturaldelta 7905600 = "3 months") ∧
    ((31536000 : Nat) < 94608000 ∧ naturaldelta 94608000 = "3 years") := by
  obtain ⟨-, -, -, -, -, -, -, h8, h9, h10, h11, h12, h13⟩ := c2_naturaldelta
  refine ⟨⟨by decide, by decide, ?_⟩, ⟨by decide, by decide, ?_⟩,
    ⟨by decide, by decide, ?_⟩, ⟨by decide, by decide, ?_⟩,
    ⟨by decide, by decide, ?_⟩, ⟨by decide, ?_⟩⟩
  · rw [h8 30 (by decide) (by decide)]; decide
  · rw [h9 90 (by decide) (by decide)]; decide
  · rw [h10 7200 (by decide) (by decide)]; decide
  · rw [h11 604800 (by decide) (by decide)]; decide
  · rw [h12 7905600 (by decide) (by decide)]; decide
  · rw [h13 94608000 (by decide)]; decide

lemma TUnit.usecs_pos (u : TUnit) : 0 < u.usecs := by
  cases u <;> decide

lemma sumRepr_cons (p : TUnit × ℚ) (L : List (TUnit × ℚ)) :
    sumRepr (p :: L) = p.2 * (p.1.usecs : ℚ) + sumRepr L := by
  simp [sumRepr]

lemma decompose_sum (us : List TUnit) :
    ∀ t : Nat, us ≠ [] → sumRepr (decompose t us) = t := by
  induction us with
  | nil => intro t h; exact absurd rfl h
  | cons u rest ih =>
    intro t _
    cases rest with
    | nil =>
        have hu : (u.usecs : ℚ) ≠ 0 := Nat.cast_ne_zero.mpr u.usecs_pos.ne'
        simp only [decompose, sumRepr, List.map_cons, List.map_nil,
          List.sum_cons, List.sum_nil, add_zero]
        rw [div_mul_cancel₀ _ hu]
    | cons v rest2 =>
        have hne : v :: rest2 ≠ [] := by simp
        rw [show decompose t (u :: v :: rest2)
              = (u, ((t / u.usecs : Nat) : ℚ)) ::
                decompose (t % u.usecs) (v :: rest2) from rfl,
          sumRepr_cons, ih (t % u.usecs) hne]
        have hmod : (t / u.usecs) * u.usecs + t % u.usecs = t := by
          rw [mul_comm]; exact Nat.div_add_mod t u.usecs
        show ((t / u.usecs : Nat) : ℚ) * (u.usecs : ℚ) + ((t % u.usecs : Nat) : ℚ)
          = (t : ℚ)
        exact_mod_cast hmod

lemma decompose_map_fst (us : List TUnit) :
    ∀ t : Nat, (decompose t us).map Prod.fst = us := by
  induction us with
  | nil => intro t; rfl
  | cons u rest ih =>
    intro t
    cases rest with
    | nil => rfl
    | cons v rest2 =>
        simp only [decompose, List.map_cons, List.cons.injEq, true_and]
        exact ih (t % u.usecs)

lemma decompose_den (us : List TUnit) :
    ∀ (t i : Nat) (hi : i + 1 < (decompose t us).length),
      ((decompose t us).get ⟨i, Nat.lt_of_succ_lt hi⟩).2.den = 1 := by
  induction us with
  | nil => intro t i hi; simp [decompose] at hi
  | cons u rest ih =>
    intro t i hi
    cases rest with
    | nil => simp [decompose] at hi
    | cons v rest2 =>
        cases i with
        | zero => simp [decompose]
        | succ j =>
            have hi' : j + 1 < (decompose (t % u.usecs) (v :: rest2)).length := by
              simpa [decompose] using hi
            simpa [decompose] using ih (t % u.usecs) j hi'

/-- C3: for every duration, minimum unit and accepted suppress set, the
itemized breakdown of `precisedelta` satisfies: the sum of each magnitude
times its unit's length equals the original span exactly, the itemized
units are exactly the retained units largest-to-smallest, and every unit
except the smallest retained one carries an integer magnitude. -/
theorem c3_precisedelta (t : Nat) (minUnit : TUnit) (suppress : List TUnit)
    (h : retainedUnits minUnit suppress ≠ []) :
    sumRepr (decompose t (retainedUnits minUnit suppress)) = t ∧
    (decompose t (retainedUnits minUnit suppress)).map Prod.fst
      = retainedUnits minUnit suppress ∧
    ∀ (i : Nat)
      (hi : i + 1 < (decompose t (retainedUnits minUnit suppress)).length),
      ((decompose t (retainedUnits minUnit suppress)).get
        ⟨i, Nat.lt_of_succ_lt hi⟩).2.den = 1 :=
  ⟨decompose_sum _ t h, decompose_map_fst _ t,
    fun i hi => decompose_den _ t i hi⟩

/-- Witness for C3: one hour, two minutes, three seconds (in
microseconds) with the minutes unit suppressed. -/
theorem c3_witness :
    retainedUnits TUnit.seconds [TUnit.minutes] ≠ [] ∧
    sumRepr (decompose 3723000000
      (retainedUnits TUnit.seconds [TUnit.minutes])) = 3723000000 :=
  ⟨by decide,
    (c3_precisedelta 3723000000 TUnit.seconds [TUnit.minutes] (by decide)).1⟩

lemma runFormat_state (c : FmtCall) (st : LocaleState) :
    (runFormat c st).2 = st := by
  cases c <;> rfl

/-- C8: every modelled formatting call either fully succeeds with a
formatted string or fails with exactly one of the three error kinds; on
any outcome the locale state is unchanged, and a string argument that is
not a valid numeral makes the call fail with `InvalidNumericInput`. -/
theorem c8_atomic_errors :
    (∀ (c : FmtCall) (st : LocaleState),
      (runFormat c st).2 = st ∧
      ((∃ r, (runFormat c st).1 = .ok r) ∨
        (runFormat c st).1 = .error .invalidNumericInput ∨
        (runFormat c st).1 = .error .localeNotFoundError ∨
        (runFormat c st).1 = .error .unsupportedUnitError)) ∧
    (∀ (s : String) (st : LocaleState), validNumeral s = false →
      (runFormat (.intcommaCall (.str s)) st).1
        = .error .invalidNumericInput) := by
  constructor
  · intro c st
    refine ⟨runFormat_state c st, ?_⟩
    rcases hr : (runFormat c st).1 with e | r
    · cases e
      · exact Or.inr (Or.inl rfl)
      · exact Or.inr (Or.inr (Or.inl rfl))
      · exact Or.inr (Or.inr (Or.inr rfl))
    · exact Or.inl ⟨r, rfl⟩
  · intro s st h
    simp [runFormat, parseNumeric, h, Except.map]

/-- Witness for C8: the unparsable string "12x" fails atomically. -/
theorem c8_witness :
    validNumeral "12x" = false ∧
    (runFormat (.intcommaCall (.str "12x")) defaultLocale).1
      = .error .invalidNumericInput :=
  ⟨by decide, c8_atomic_errors.2 "12x" defaultLocale (by decide)⟩

/-- C9: formatting is a pure function of the arguments and the active
locale: a call leaves the locale state (decimal separator, thousands
separator, plural rule) unchanged, and a second call with identical
arguments and no intervening `activate`/`deactivate` returns an identical
outcome. -/
theorem c9_pure_formatting :
    ∀ (c : FmtCall) (st : LocaleState),
      (runFormat c st).2 = st ∧
      (runFormat c ((runFormat c st).2)).1 = (runFormat c st).1 ∧
      (runFormat c st).2.decimalSep = st.decimalSep ∧
      (runFormat c st).2.thousandsSep = st.thousandsSep ∧
      (runFormat c st).2.pluralRule = st.pluralRule := by
  intro c st
  have h := runFormat_state c st
  rw [h]
  exact ⟨rfl, rfl, rfl, rfl, rfl⟩

/-- C10: for a width of at least one cell, `bar` returns the color, a
block of between 1 and `width` "█" cells, the reset escape, and "░" cells
padding the total cell count to `width`; when `max_val` is not positive
the scaled count is not computed (the result is independent of `value`)
and the clamped fill is a single cell. -/
theorem c10_bar (value maxVal : ℚ) (width : Nat) (color : String)
    (h : 1 ≤ width) :
    (∃ f : Nat, 1 ≤ f ∧ f ≤ width ∧
      bar value maxVal width color =
        color ++ (List.replicate f '█').asString ++ colorsReset
          ++ (List.replicate (width - f) '░').asString) ∧
    (maxVal ≤ 0 → barFilled value maxVal width = 1) ∧
    (maxVal ≤ 0 → ∀ value' : ℚ,
      bar value maxVal width color = bar value' maxVal width color) := by
  have hfl : (1 : Int) ≤ barFilled value maxVal width := le_max_left _ _
  have hfu : barFilled value maxVal width ≤ (width : Int) :=
    max_le (by exact_mod_cast h) (min_le_right _ _)
  refine ⟨⟨(barFilled value maxVal width).toNat, by omega, by omega, ?_⟩,
    ?_, ?_⟩
  · unfold bar
    have hsub : ((width : Int) - barFilled value maxVal width).toNat
        = width - (barFilled value maxVal width).toNat := by omega
    rw [hsub]
  · intro hm
    unfold barFilled
    rw [if_neg (not_lt.mpr hm)]
    omega
  · intro hm v'
    unfold bar barFilled
    simp only [if_neg (not_lt.mpr hm)]

/-- Witness for C10: a four-cell bar at value 5 of 10. -/
theorem c10_witness :
    (1 : Nat) ≤ 4 ∧
    ∃ f : Nat, 1 ≤ f ∧ f ≤ 4 ∧
      bar 5 10 4 "" =
        "" ++ (List.replicate f '█').asString ++ colorsReset
          ++ (List.replicate (4 - f) '░').asString :=
  ⟨by decide, (c10_bar 5 10 4 "" (by decide)).1⟩

lemma groupRev_nil (sep : Char) (k : Nat) : groupRev sep k [] = [] := by
  cases k <;> rfl

lemma groupRev_filter (sep : Char) :
    ∀ (l : List Char) (k : Nat), sep ∉ l →
      (groupRev sep k l).filter (· ≠ sep) = l := by
  intro l
  induction l with
  | nil => intro k _; rw [groupRev_nil]; rfl
  | cons c rest ih =>
    intro k h
    have hc : c ≠ sep := fun hcc => h (hcc ▸ List.mem_cons_self c rest)
    have hrest : sep ∉ rest := fun hr => h (List.mem_cons_of_mem c hr)
    cases k with
    | zero =>
        simp only [groupRev, List.filter_cons]
        simp [hc]
        simpa using ih 2 hrest
    | succ k' =>
        simp only [groupRev, List.filter_cons]
        simp [hc]
        simpa using ih k' hrest

lemma groupRev_sep_positions (sep : Char) :
    ∀ (l : List Char) (k i : Nat), k ≤ 3 → sep ∉ l →
      ((groupRev sep k l)[i]? = some sep ↔
        ((i + (3 - k)) % 4 = 3 ∧ i < (groupRev sep k l).length)) := by
  intro l
  induction l with
  | nil =>
      intro k i _ _
      rw [groupRev_nil]
      simp
  | cons c rest ih =>
      intro k i hk h
      have hc : c ≠ sep := fun hcc => h (hcc ▸ List.mem_cons_self c rest)
      have hrest : sep ∉ rest := fun hr => h (List.mem_cons_of_mem c hr)
      cases k with
      | zero =>
          cases i with
          | zero => simp [groupRev]
          | succ i' =>
              cases i' with
              | zero => simp [groupRev, hc]
              | succ j =>
                  simp only [groupRev, List.getElem?_cons_succ]
                  rw [ih 2 j (by omega) hrest]
                  simp only [List.length_cons]
                  omega
      | succ k' =>
          cases i with
          | zero =>
              simp only [groupRev, List.getElem?_cons_zero, List.length_cons]
              constructor
              · intro hcs
                exact absurd (Option.some_injective _ hcs) hc
              · intro hrhs
                omega
          | succ j =>
              simp only [groupRev, List.getElem?_cons_succ]
              rw [ih k' j (by omega) hrest]
              simp only [List.length_cons]
              omega

lemma toList_toString_int (n : Int) :
    (toString n).toList
      = (if n < 0 then ['-'] else []) ++ (toString n.natAbs).toList := by
  cases n with
  | ofNat m =>
      rw [if_neg (show ¬Int.ofNat m < 0 from not_lt.mpr (Int.ofNat_nonneg m))]
      rfl
  | negSucc m =>
      rw [if_pos (Int.negSucc_lt_zero m)]
      rfl

lemma intcomma_toList (sep : Char) (n : Int) :
    (intcomma sep n).toList
      = (if n < 0 then ['-'] else [])
        ++ (groupRev sep 3 (toString n.natAbs).toList.reverse).reverse := by
  unfold intcomma
  by_cases hn : n < 0
  · rw [if_pos hn, if_pos hn]
    rfl
  · rw [if_neg hn, if_neg hn]
    rfl

/-- C4: for every integer and every separator character that cannot occur
in the plain decimal string, stripping the separator from the `intcomma`
output restores exactly the decimal string (sign before the first digit),
and within the digit part the separator sits exactly at every position
congruent to 3 mod 4 counted from the right — that is, after every group
of 3 digits. -/
theorem c4_intcomma (sep : Char) (n : Int)
    (h : sep ∉ (toString n).toList) :
    (intcomma sep n).toList.filter (· ≠ sep) = (toString n).toList ∧
    (∀ i : Nat,
      ((intcommaDigits sep n).reverse)[i]? = some sep ↔
        (i % 4 = 3 ∧ i < (intcommaDigits sep n).length)) := by
  have hds : sep ∉ (toString n.natAbs).toList := by
    rw [toList_toString_int] at h
    exact fun hmem => h (List.mem_append_right _ hmem)
  have hds' : sep ∉ (toString n.natAbs).toList.reverse := by
    simpa [List.mem_reverse] using hds
  constructor
  · rw [intcomma_toList, List.filter_append, List.filter_reverse,
      groupRev_filter sep _ 3 hds', List.reverse_reverse,
      toList_toString_int]
    congr 1
    by_cases hn : n < 0
    · have hminus : ('-' : Char) ≠ sep := by
        intro hcc
        rw [toList_toString_int, if_pos hn] at h
        exact h (List.mem_append_left _ (hcc ▸ List.mem_cons_self '-' []))
      rw [if_pos hn]
      simp [hminus]
    · rw [if_neg hn]
      rfl
  · have hdig : intcommaDigits sep n
        = (groupRev sep 3 (toString n.natAbs).toList.reverse).reverse := by
      unfold intcommaDigits
      by_cases hn : n < 0
      · rw [if_pos hn, intcomma_toList, if_pos hn]
        rfl
      · rw [if_neg hn, intcomma_toList, if_neg hn]
        rfl
    intro i
    rw [hdig, List.reverse_reverse, List.length_reverse]
    have key := groupRev_sep_positions sep
      (toString n.natAbs).toList.reverse 3 i (by omega) hds'
    simpa using key

/-- Witness for C4: the separator "," on the value -1234567. -/
theorem c4_witness :
    (',' ∉ (toString (-1234567 : Int)).toList) ∧
    (intcomma ',' (-1234567)).toList.filter (· ≠ ',')
      = (toString (-1234567 : Int)).toList :=
  ⟨by decide, (c4_intcomma ',' (-1234567) (by decide)).1⟩

/-- Witness for C7: instantiating the Oxford-comma clause at
`["a","b","c"]`. -/
theorem c7_witness :
    3 ≤ (["a", "b", "c"] : List String).length ∧
    natural_list ["a", "b", "c"] = "a, b, and c" := by
  refine ⟨by decide, ?_⟩
  have h := c7_natural_list.2.2.2 ["a", "b", "c"] (by decide)
  rw [h]
  decide

end Speakhuman
